import Mathlib

/-!
Verification of the SCOPE repository's indexing / structural-editing engine.

The development shallowly embeds the code of `src/editor/ast_parser.py` and
`src/editor/code_tree.py`:

* a line-accurate model of a parsed Python document (`Stmt`, `Stmts`,
  `TopItem`), of libcst's whitespace-exclusive position metadata, and of the
  `QuickEdit` transformer inside `ProjectParser.edit_symbol` (the
  `resolve_insertion` descent, the path-based splice, and the bottom-up
  rebuild);
* the semantic tree (`CodeNode`, `Tree`), `CodeSemanticTree.build_from_parser`,
  `CodeNode.add_child`, `CodeSemanticTree._rebuild_file_branch`;
* `CodeSemanticTree.collect_context` with `text_for_completion` and
  `_approx_tokens`;
* `CodeSemanticTree.to_json` / `create_from_dict` serialization;
* `ProjectParser.resolve`.

Statement lists nested inside compound statements are represented by the
mutually inductive `Stmts` (isomorphic to `List Stmt`) so that every function
is structurally recursive and therefore computable by `decide` / `rfl`.
-/

mutual
/-- A statement of an indented block, as rendered by libcst.

`simple leading ls` is a `SimpleStatementLine` (or any statement the editor
treats as a leaf): `leading` are its `leading_lines` (blank lines and
comments, rendered verbatim, excluded from the node's `PositionProvider`
range), `ls` are the code lines of the statement itself (the first one is
indented by the owning block, continuation lines carry their own
whitespace).

`compound dsc leading header body tail` is a compound statement owning an
indented `body`; `dsc` records whether the statement is one of
`If/For/While/With/Try` — the only kinds `resolve_insertion` descends into —
`header` its header lines, and `tail` the lines of trailing clauses
(`else:`/`except:`/... suites), which the editor never descends into but
which count toward the node's end position. -/
inductive Stmt where
  | simple : List String → List String → Stmt
  | compound : Bool → List String → List String → Stmts → List String → Stmt

/-- A statement list (isomorphic to `List Stmt`; kept mutual so recursion
over nested bodies stays structural and computable). -/
inductive Stmts where
  | nil : Stmts
  | cons : Stmt → Stmts → Stmts
end

namespace Stmts

def lenS : Stmts → Nat
  | .nil => 0
  | .cons _ rest => lenS rest + 1

def appendS : Stmts → Stmts → Stmts
  | .nil, t => t
  | .cons s rest, t => .cons s (appendS rest t)

def takeS : Nat → Stmts → Stmts
  | 0, _ => .nil
  | _, .nil => .nil
  | n + 1, .cons s rest => .cons s (takeS n rest)

def dropS : Nat → Stmts → Stmts
  | 0, l => l
  | _, .nil => .nil
  | n + 1, .cons _ rest => dropS n rest

def getS : Stmts → Nat → Option Stmt
  | .nil, _ => none
  | .cons s _, 0 => some s
  | .cons _ rest, n + 1 => getS rest n

def setS : Stmts → Nat → Stmt → Stmts
  | .nil, _, _ => .nil
  | .cons _ rest, 0, v => .cons v rest
  | .cons s rest, n + 1, v => .cons s (setS rest n v)

end Stmts

open Stmts in
/-- The `leading_lines` of a statement (blank lines / comments preceding it,
excluded from its libcst position). -/
def leadingOf : Stmt → List String
  | .simple l _ => l
  | .compound _ l _ _ _ => l

/-- Whether `resolve_insertion` may descend into this statement:
`isinstance(stmt, (cst.If, cst.For, cst.While, cst.With, cst.Try))`. -/
def isDescendable : Stmt → Bool
  | .simple _ _ => false
  | .compound d _ _ _ _ => d

mutual
/-- Number of source lines covered by the statement's own code (its libcst
position range), excluding leading trivia. -/
def contentLines : Stmt → Nat
  | .simple _ ls => ls.length
  | .compound _ _ hd body tl => hd.length + stmtsLines body + tl.length

/-- Total number of rendered source lines of a statement list, leading trivia
included. -/
def stmtsLines : Stmts → Nat
  | .nil => 0
  | .cons s rest => (leadingOf s).length + contentLines s + stmtsLines rest
end

/-- Total rendered lines of one statement, leading trivia included. -/
def stmtLines (s : Stmt) : Nat := (leadingOf s).length + contentLines s

/-- Indent only the first line of a statement's code: libcst adds the block
indent at the start of each statement; continuation lines render their own
stored whitespace. -/
def indentFirst (ind : String) : List String → List String
  | [] => []
  | l :: ls => (ind ++ l) :: ls

mutual
/-- Render one statement at block indentation `ind` (leading trivia verbatim,
nested body one level deeper, trailing clause lines at this level). -/
def renderStmt (ind : String) : Stmt → List String
  | .simple leading ls => leading ++ indentFirst ind ls
  | .compound _ leading hd body tl =>
      leading ++ indentFirst ind hd ++ renderStmts (ind ++ "    ") body
        ++ tl.map (fun l => ind ++ l)

/-- Render a statement list at block indentation `ind`. -/
def renderStmts (ind : String) : Stmts → List String
  | .nil => []
  | .cons s rest => renderStmt ind s ++ renderStmts ind rest
end

mutual
/-- The recursive descent of `resolve_insertion.descend` in
`ProjectParser.edit_symbol`: scan the statements of the current body in
order; `line` is the rendered line on which the next statement's leading
trivia begins, `i` the index of the next statement in the current body,
`path` the statement-index path taken to reach this body.  Against each
statement's position range it compares `target`:
if `target <= start` the insertion point is before this statement
(`exact hit` when equal); else if `start < target <= end` and the statement
is a descendable compound, descend into its body; otherwise continue, and at
the end of the body append (`index = length`). -/
def descendStmts (target : Nat) : Stmts → List Nat → Nat → Nat → List Nat × Nat × Bool
  | .nil, path, _, i => (path, i, false)
  | .cons s rest, path, line, i =>
      let st := line + (leadingOf s).length
      if target ≤ st then (path, i, decide (target = st))
      else if st < target ∧ target ≤ st + contentLines s - 1 ∧ isDescendable s then
        intoStmt target s (path ++ [i]) st
      else descendStmts target rest path (line + (leadingOf s).length + contentLines s) (i + 1)

/-- Descend into a compound statement's owned body (its body begins right
after its header lines). -/
def intoStmt (target : Nat) : Stmt → List Nat → Nat → List Nat × Nat × Bool
  | .simple _ _, path, _ => (path, 0, false)
  | .compound _ _ hd body _, path, st => descendStmts target body path (st + hd.length) 0
end

/-- Edit mode of `edit_symbol` (`mode ∈ insert/replace`; Python also rejects
any other string with a `ValueError`, which the claims do not exercise). -/
inductive EMode where
  | insert : EMode
  | replace : EMode
deriving DecidableEq

/-- The typed errors `edit_symbol` can raise, per the spec's taxonomy:
`editOutOfRange` is the `IndexError` from replace mode pointing past the last
statement; `internalErr` covers the unreachable malformed-path accesses in
`get_parent_body`/`rebuild`; `symbolMissing` the post-edit `KeyError` when the
edited symbol vanished from the rebuilt index; `fileNotLoaded` the `KeyError`
for a file absent from the module cache. -/
inductive EditError where
  | fileNotLoaded : EditError
  | editOutOfRange : EditError
  | internalErr : EditError
  | symbolMissing : EditError
deriving DecidableEq

/-- Locate the nested body addressed by a statement-index path
(`get_parent_body` in `edit_symbol`, descending through `.body` of the
statement at each index). -/
def bodyAtPath : Stmts → List Nat → Option Stmts
  | stmts, [] => some stmts
  | stmts, i :: rest =>
      match stmts.getS i with
      | some (Stmt.compound _ _ _ b _) => bodyAtPath b rest
      | _ => none

/-- Walk `path` into the (updated) function body, splice at the addressed
body, and rebuild bottom-up along the path — the combined
`get_parent_body` + splice + `rebuild` logic of `QuickEdit.leave_FunctionDef`:
insert splices `newStmts` in at `idx` (shifting later statements down);
replace replaces exactly one statement, failing with the out-of-range
`IndexError` when `idx` is at or past the end of the list. -/
def spliceAtPath (mode : EMode) (newStmts : Stmts) :
    List Nat → Nat → Stmts → Except EditError Stmts
  | [], idx, stmts =>
      match mode with
      | .insert => .ok ((stmts.takeS idx).appendS (newStmts.appendS (stmts.dropS idx)))
      | .replace =>
          if stmts.lenS ≤ idx then .error .editOutOfRange
          else .ok ((stmts.takeS idx).appendS (newStmts.appendS (stmts.dropS (idx + 1))))
  | i :: rest, idx, stmts =>
      match stmts.getS i with
      | some (Stmt.compound d l h b tl) =>
          match spliceAtPath mode newStmts rest idx b with
          | .ok b2 => .ok (stmts.setS i (Stmt.compound d l h b2 tl))
          | .error e => .error e
      | _ => .error .internalErr

/-- The per-function edit of `QuickEdit.leave_FunctionDef` on the target
function: `target_line = func_start_line + 1 + relative_line`, resolved
against the original positions (the body's first rendered line comes right
after the header's lines), then spliced along the resolved path. -/
def editFunction (startLine relLine : Nat) (mode : EMode) (newStmts : Stmts)
    (header : List String) (body : Stmts) : Except EditError Stmts :=
  let target := startLine + 1 + relLine
  let r := descendStmts target body [] (startLine + header.length) 0
  spliceAtPath mode newStmts r.1 r.2.1 body

/-- A top-level element of a parsed module: either lines the editor never
touches (`raw`, covering imports, classes without target functions, blank
lines, ...) or an indexed function/method, identified by the dotted qualified
name `QuickEdit` computes from its class stack, with its rendered header
lines (decorators and `def ...:` line(s)), the indentation of its body, and
its body statements. -/
inductive TopItem where
  | raw : List String → TopItem
  | funcItem : String → String → List String → Stmts → TopItem

/-- Rendered lines of one top-level item (libcst code generation). -/
def renderItem : TopItem → List String
  | .raw ls => ls
  | .funcItem _ ind header body => header ++ renderStmts ind body

/-- Line count of one top-level item. -/
def itemLines : TopItem → Nat
  | .raw ls => ls.length
  | .funcItem _ _ header body => header.length + stmtsLines body

/-- Rendered lines of a module (`Module.code`, at line granularity). -/
def renderItems : List TopItem → List String
  | [] => []
  | it :: rest => renderItem it ++ renderItems rest

/-- Total line count of a module prefix. -/
def itemsLines : List TopItem → Nat
  | [] => 0
  | it :: rest => itemLines it + itemsLines rest

/-- The `QuickEdit` traversal over the whole module: every function whose
qualified name equals the target is edited (positions always computed from
the original, pre-edit tree — `line` tracks the 1-based start line of the
next item in the original rendering); a raised error aborts the traversal.
Other items are returned unchanged, so their rendered text is preserved
byte-for-byte. -/
def editItems (target : String) (relLine : Nat) (mode : EMode) (newStmts : Stmts) :
    List TopItem → Nat → Except EditError (List TopItem)
  | [], _ => .ok []
  | .raw ls :: rest, line =>
      match editItems target relLine mode newStmts rest (line + ls.length) with
      | .ok r => .ok (.raw ls :: r)
      | .error e => .error e
  | .funcItem qn ind header body :: rest, line =>
      if qn = target then
        match editFunction line relLine mode newStmts header body with
        | .ok newBody =>
            match editItems target relLine mode newStmts rest
                (line + header.length + stmtsLines body) with
            | .ok r => .ok (.funcItem qn ind header newBody :: r)
            | .error e => .error e
        | .error e => .error e
      else
        match editItems target relLine mode newStmts rest
            (line + header.length + stmtsLines body) with
        | .ok r => .ok (.funcItem qn ind header body :: r)
        | .error e => .error e

/-- Python's `new_code.endswith("\n")`: the last character is a newline. -/
def endsWithNL (cs : List Char) : Bool := cs.getLast? == some '\n'

/-- The normalization at the top of `edit_symbol`:
`cst.parse_module(new_code if new_code.endswith("\n") else new_code + "\n")`. -/
def normalizeNewCode (cs : List Char) : List Char :=
  if endsWithNL cs then cs else cs ++ ['\n']

/-- Whether some top-level function of the module has the qualified name:
the post-edit re-index membership test `symbol_path in self._index[file]`. -/
def containsFunc (items : List TopItem) (qn : String) : Bool :=
  items.any (fun it =>
    match it with
    | .funcItem q _ _ _ => q == qn
    | .raw _ => false)

/-- The cached `ParsedDocument` of one file: its source text (as lines) and
its parsed module. -/
structure PDoc where
  src : List String
  items : List TopItem

/-- The `ProjectParser` caches keyed by file (`_sources`/`_modules`/`_index`,
collapsed to one association list of documents). -/
def PState := List (String × PDoc)

/-- Replace the value stored at an existing key of an association list. -/
def updateVal {α : Type} (l : List (String × α)) (k : String) (v : α) :
    List (String × α) :=
  l.map (fun p => if p.1 == k then (k, v) else p)

/-- Python `dict[key] = value`: overwrite in place when the key exists
(keeping its position), append otherwise. -/
def insertLastWins {α : Type} (l : List (String × α)) (kv : String × α) :
    List (String × α) :=
  if l.any (fun p => p.1 == kv.1) then updateVal l kv.1 kv.2 else l ++ [kv]

/-- `ProjectParser.edit_symbol`: look up the cached module, parse the
(newline-normalized) `new_code` into statements — `parse` stands for
`cst.parse_module`, a parameter of the model — run the `QuickEdit` transform,
and only on success re-serialize, overwrite the cached document and re-index.
The raised `IndexError`/`ValueError` of the transform propagates before any
cache write, so a failed call leaves every cached document unchanged (the
error result carries no state).  The final `self._index[file][symbol_path]`
lookup raises after caching when the symbol vanished; `editItems` preserves
function names, so that branch is unreachable. -/
def editSymbolState (parse : List Char → Stmts) (st : PState) (file sym : String)
    (relLine : Nat) (newCode : List Char) (mode : EMode) :
    Except EditError (PState × List String) :=
  match List.lookup file st with
  | none => .error .fileNotLoaded
  | some doc =>
      let stmts := parse (normalizeNewCode newCode)
      match editItems sym relLine mode stmts doc.items 1 with
      | .error e => .error e
      | .ok newItems =>
          let newSrc := renderItems newItems
          if containsFunc newItems sym then
            .ok (insertLastWins st (file, PDoc.mk newSrc newItems), newSrc)
          else .error .symbolMissing

/-- Whether no function item of the list carries the qualified name (the
target function occurs exactly once in the modules our theorems quantify
over, matching a symbol table that resolves one record per name). -/
def noFuncNamed (qn : String) (items : List TopItem) : Bool :=
  items.all (fun it =>
    match it with
    | .funcItem q _ _ _ => q != qn
    | .raw _ => true)

/-- Start lines (1-based, leading trivia excluded — the libcst position
starts) of the statements of a body whose first rendered line is `line`. -/
def stmtStartLines : Stmts → Nat → List Nat
  | .nil, _ => []
  | .cons s rest, line =>
      (line + (leadingOf s).length) :: stmtStartLines rest (line + stmtLines s)

/-- The libcst position start lines of the top-level body statements of the
first function item named `qn`, scanning the module from line 1. -/
def funcBodyStartLines : List TopItem → String → Nat → Option (List Nat)
  | [], _, _ => none
  | .raw ls :: rest, qn, line => funcBodyStartLines rest qn (line + ls.length)
  | .funcItem q _ header body :: rest, qn, line =>
      if q == qn then some (stmtStartLines body (line + header.length))
      else funcBodyStartLines rest qn (line + header.length + stmtsLines body)

/-- The declaration start line of the first function item named `qn`
(`func_pos.start.line` in `QuickEdit.leave_FunctionDef`). -/
def funcStartLine : List TopItem → String → Nat → Option Nat
  | [], _, _ => none
  | .raw ls :: rest, qn, line => funcStartLine rest qn (line + ls.length)
  | .funcItem q _ header body :: rest, qn, line =>
      if q == qn then some line
      else funcStartLine rest qn (line + header.length + stmtsLines body)

/-- `CodeNode` of `code_tree.py` (the `meta` dict of heterogeneous values is
not inspected by any claim and is omitted). -/
structure CodeNode where
  id : String
  name : String
  kind : String
  parent : Option String := none
  children : List String := []
  source : Option String := none
  summary : Option String := none
deriving DecidableEq

/-- `CodeSemanticTree`: the `nodes` dict (association list keyed by node id)
and the root's id. -/
structure CTree where
  nodes : List (String × CodeNode)
  rootId : String
deriving DecidableEq

/-- Python's `str.strip()` with no arguments: drop leading and trailing
whitespace code points (implemented on the code-point list so it evaluates
in the kernel). -/
def pyStrip (s : String) : String :=
  String.mk (((s.toList.dropWhile Char.isWhitespace).reverse.dropWhile
    Char.isWhitespace).reverse)

/-- Python truthiness of an optional string (`if self.source:`): present and
non-empty. -/
def truthy : Option String → Bool
  | some s => s != ""
  | none => false

/-- `CodeNode.text_for_completion`: select blocks per `include`, join with
newlines, strip, truncate to `max_chars` characters (Python's
`out[:max_chars]` slices code points; the truncation is taken on the
code-point list). -/
def textForCompletion (n : CodeNode) (includeMode : String) (maxChars : Nat) : String :=
  let blocks : List String :=
    if includeMode == "best" then
      if truthy n.source then [n.source.getD ""]
      else if truthy n.summary then [n.summary.getD ""]
      else []
    else if includeMode == "both" then
      (if truthy n.summary then [n.summary.getD ""] else [])
        ++ (if truthy n.source then [n.source.getD ""] else [])
    else if includeMode == "summary" then
      (if truthy n.summary then [n.summary.getD ""] else [])
    else if includeMode == "source" then
      (if truthy n.source then [n.source.getD ""] else [])
    else []
  String.mk ((pyStrip (String.intercalate "\n" blocks)).toList.take maxChars)

/-- `CodeSemanticTree._approx_tokens`: 0 for empty text, else
`max(1, len(text) // 4)`. -/
def approxTokens (text : String) : Nat :=
  if text == "" then 0 else max 1 (text.length / 4)

/-- The parent-chain walk of `CodeSemanticTree.ancestors` (its `while cur:`
loop appends each parent id then follows its parent pointer; Python stops on
a falsy id — `None` or the empty string — and raises `KeyError` on a
dangling id, where the model stops; the fuel bound is irrelevant on the
acyclic trees the claims concern, where the walk reaches the root first). -/
def ancestorSteps (t : List (String × CodeNode)) :
    Nat → Option String → List String → List String
  | 0, _, acc => acc
  | _ + 1, none, acc => acc
  | fuel + 1, some p, acc =>
      if p == "" then acc
      else
        match List.lookup p t with
        | none => acc ++ [p]
        | some n => ancestorSteps t fuel n.parent (acc ++ [p])

/-- `CodeSemanticTree.ancestors`, root first (`out[::-1]`). -/
def ancestorsOf (t : List (String × CodeNode)) (nid : String) : List String :=
  match List.lookup nid t with
  | none => []
  | some n => (ancestorSteps t (t.length + 1) n.parent []).reverse

/-- Relevance score of a node id (the precomputed `scores` dict of
`collect_context`; scores are kept in `Int`, their only use is ordering). -/
def scoreOf (t : List (String × CodeNode)) (scoreFn : String → CodeNode → Int)
    (query : String) (nid : String) : Int :=
  match List.lookup nid t with
  | some n => scoreFn query n
  | none => 0

/-- Stable insertion into a descending-sorted list (equal scores keep their
original relative order, as Python's stable `sorted(..., reverse=True)`). -/
def insertByScoreDesc (score : String → Int) (x : String) : List String → List String
  | [] => [x]
  | y :: ys =>
      if score y ≤ score x then x :: y :: ys else y :: insertByScoreDesc score x ys

/-- Stable descending sort by score. -/
def sortByScoreDesc (score : String → Int) : List String → List String
  | [] => []
  | x :: xs => insertByScoreDesc score x (sortByScoreDesc score xs)

/-- `collect_context.sorted_children`: the node's children sorted by
descending score. -/
def sortedChildren (t : List (String × CodeNode)) (query : String)
    (scoreFn : String → CodeNode → Int) (nid : String) : List String :=
  match List.lookup nid t with
  | none => []
  | some n => sortByScoreDesc (scoreOf t scoreFn query) n.children

/-- The sibling ids visited by the `"siblings"` branch of `collect_context`
(`if p:` is false for `None` and for the empty string). -/
def siblingsOf (t : List (String × CodeNode)) (nid : String) : List String :=
  match List.lookup nid t with
  | none => []
  | some n =>
      match n.parent with
      | none => []
      | some p =>
          if p == "" then []
          else
            match List.lookup p t with
            | none => []
            | some pn => pn.children.filter (fun sib => sib != nid)

/-- Accumulator of `collect_context`: the ordered `out` mapping and
`used_tokens`. -/
structure CCState where
  out : List (String × String)
  used : Nat

/-- `collect_context.try_add`: skip ids already in `out`, skip empty prepared
text, and add only if the estimated token cost fits the remaining budget. -/
def tryAdd (t : List (String × CodeNode)) (mode : String) (budget : Nat)
    (st : CCState) (nid : String) : CCState :=
  if st.out.any (fun p => p.1 == nid) then st
  else
    match List.lookup nid t with
    | none => st
    | some node =>
      if textForCompletion node mode 32000 == "" then st
      else
        if st.used + approxTokens (textForCompletion node mode 32000) ≤ budget then
          ⟨st.out ++ [(nid, textForCompletion node mode 32000)],
           st.used + approxTokens (textForCompletion node mode 32000)⟩
        else st

/-- The per-popped-node additions of `collect_context`: the four membership
tests on `include_order` run in this fixed textual order (ancestors, self,
siblings, children), each guarded by `"..." in include_order`. -/
def stepNode (t : List (String × CodeNode)) (mode : String) (budget : Nat)
    (order : List String) (query : String) (scoreFn : String → CodeNode → Int)
    (st : CCState) (nid : String) : CCState :=
  let st1 := if order.contains "ancestors" then
      (ancestorsOf t nid).foldl (tryAdd t mode budget) st else st
  let st2 := if order.contains "self" then tryAdd t mode budget st1 nid else st1
  let st3 := if order.contains "siblings" then
      (siblingsOf t nid).foldl (tryAdd t mode budget) st2 else st2
  if order.contains "children" then
    (sortedChildren t query scoreFn nid).foldl (tryAdd t mode budget) st3 else st3

/-- The frontier loop of `collect_context`
(`while frontier and used_tokens < token_budget:`), popping from the front,
skipping visited ids, and pushing the sorted children onto the front
(`frontier[:0] = sorted_children(nid)`); fuel makes the recursion structural
(Python's loop terminates on the finite acyclic trees of the claims, and
every theorem below holds for every fuel). -/
def ccLoop (t : List (String × CodeNode)) (mode : String) (budget : Nat)
    (order : List String) (query : String) (scoreFn : String → CodeNode → Int) :
    Nat → CCState → List String → List String → List (String × String)
  | 0, st, _, _ => st.out
  | fuel + 1, st, visited, frontier =>
      match frontier with
      | [] => st.out
      | nid :: rest =>
          if budget ≤ st.used then st.out
          else if visited.contains nid then
            ccLoop t mode budget order query scoreFn fuel st visited rest
          else
            let st2 := stepNode t mode budget order query scoreFn st nid
            ccLoop t mode budget order query scoreFn fuel st2 (nid :: visited)
              (sortedChildren t query scoreFn nid ++ rest)

/-- `CodeSemanticTree.collect_context`: best-first, budget-limited traversal
seeded at `"root"`, returning the ordered `{node_id: text}` mapping. -/
def collectContext (t : CTree) (query : String) (budget : Nat)
    (order : List String) (mode : String) (scoreFn : String → CodeNode → Int)
    (fuel : Nat) : List (String × String) :=
  ccLoop t.nodes mode budget order query scoreFn fuel ⟨[], 0⟩ [] ["root"]

mutual
/-- The nested JSON document produced by `CodeNode.to_dict` /
`CodeSemanticTree.to_json` and consumed by `create_from_dict`: id, name,
kind, summary, an optional `source` key, and the ordered children. -/
inductive NodeDict where
  | mk : String → String → String → Option String → Option String → NodeDicts → NodeDict

/-- Children list of a `NodeDict` (kept mutual for structural recursion). -/
inductive NodeDicts where
  | nil : NodeDicts
  | cons : NodeDict → NodeDicts → NodeDicts
end

def dictId : NodeDict → String
  | .mk i _ _ _ _ _ => i

def dictName : NodeDict → String
  | .mk _ nm _ _ _ _ => nm

def dictKind : NodeDict → String
  | .mk _ _ k _ _ _ => k

def dictSummary : NodeDict → Option String
  | .mk _ _ _ sm _ _ => sm

def dictSource : NodeDict → Option String
  | .mk _ _ _ _ src _ => src

def dictChildren : NodeDict → NodeDicts
  | .mk _ _ _ _ _ cs => cs

def dictsToList : NodeDicts → List NodeDict
  | .nil => []
  | .cons d ds => d :: dictsToList ds

/-- Ids of a dict's children in order. -/
def childIds : NodeDicts → List String
  | .nil => []
  | .cons d ds => dictId d :: childIds ds

/-- The `source` key committed by `CodeNode.to_dict`:
`if include_source and self.source: data["source"] = self.source` — a `None`
or empty-string source yields no key. -/
def exportSource (includeSource : Bool) (src : Option String) : Option String :=
  match src with
  | some s => if includeSource && s != "" then some s else none
  | none => none

/-- Export the ordered children (`build_subtree` mapped over
`node.children`); `none` propagates a failed child export. -/
def exportChildren (f : String → Option NodeDict) : List String → Option NodeDicts
  | [] => some .nil
  | c :: cs =>
      match f c, exportChildren f cs with
      | some d, some ds => some (.cons d ds)
      | _, _ => none

/-- `CodeSemanticTree.to_json`'s `build_subtree` starting from a node id:
look the node up, export its fields via `to_dict` and recurse into
`self.nodes[cid]` for each child (a `KeyError` on a dangling child — and a
cyclic tree, on which Python would not terminate — export as `none`; fuel
makes the recursion structural). -/
def exportNode (includeSource : Bool) :
    Nat → List (String × CodeNode) → String → Option NodeDict
  | 0, _, _ => none
  | fuel + 1, nodes, nid =>
      match List.lookup nid nodes with
      | none => none
      | some n =>
          match exportChildren (fun c => exportNode includeSource fuel nodes c) n.children with
          | none => none
          | some ds =>
              some (.mk n.id n.name n.kind n.summary
                (exportSource includeSource n.source) ds)

/-- The `CodeNode` that `create_from_dict.build_subtree` leaves in
`tree.nodes` for this dict once its children have been attached: fields from
the dict (`source`/`summary` absent keys become `None`), children ids in
dict order, parent set by the enclosing `add_child`. -/
def nodeOfDict (parentId : Option String) (d : NodeDict) : CodeNode :=
  { id := dictId d, name := dictName d, kind := dictKind d, parent := parentId,
    children := childIds (dictChildren d), source := dictSource d,
    summary := dictSummary d }

mutual
/-- All `tree.nodes[node.id] = node` assignments performed by
`build_subtree`, in execution order (each node is registered before its
children; in-place mutation of the shared object is rendered by pairing each
id directly with the finalized node). -/
def flattenDict (parentId : Option String) : NodeDict → List (String × CodeNode)
  | .mk i nm k sm src cs =>
      (i, nodeOfDict parentId (.mk i nm k sm src cs)) :: flattenDicts (some i) cs

/-- Assignments for a children list, left to right. -/
def flattenDicts (parentId : Option String) : NodeDicts → List (String × CodeNode)
  | .nil => []
  | .cons d ds => flattenDict parentId d ++ flattenDicts parentId ds
end

/-- Replay dict assignments with Python overwrite semantics. -/
def buildMap (l : List (String × CodeNode)) : List (String × CodeNode) :=
  l.foldl insertLastWins []

/-- `CodeSemanticTree.create_from_dict`: rebuild the nodes map from the
nested dict; when the root dict's id is not `"root"` an extra alias entry
`nodes["root"] = tree.root` is added. -/
def createFromDict (d : NodeDict) : CTree :=
  let ns := buildMap (flattenDict none d)
  let ns2 := if dictId d != "root" then insertLastWins ns ("root", nodeOfDict none d)
    else ns
  ⟨ns2, dictId d⟩

/-- Recursive comparison of the nodes reachable from `nid` in two node maps
on the fields named by the round-trip claim: id, kind, name, summary,
source, and the ordered children. -/
def reachMatch : Nat → List (String × CodeNode) → List (String × CodeNode) → String → Bool
  | 0, _, _, _ => false
  | fuel + 1, t1, t2, nid =>
      match List.lookup nid t1, List.lookup nid t2 with
      | some a, some b =>
          a.id == b.id && a.kind == b.kind && a.name == b.name
            && a.summary == b.summary && a.source == b.source
            && a.children == b.children
            && a.children.all (fun c => reachMatch fuel t1 t2 c)
      | _, _ => false

/-- Every stored node's id equals its key in `nodes` (the `nodes: id -> node`
well-formedness the data model prescribes). -/
def keysConsistent (nodes : List (String × CodeNode)) : Bool :=
  nodes.all (fun p => p.2.id == p.1)

/-- No stored node has the empty string as its source. -/
def noEmptySource (nodes : List (String × CodeNode)) : Bool :=
  nodes.all (fun p => !(p.2.source == some ""))

mutual
/-- A definition node of a parsed Python file as walked by
`_SymbolCollector`: a class or a function definition with the definitions
nested in its body (other statements contribute no symbols and are elided by
the walk). -/
inductive PyNode where
  | classDef : String → PyNodes → PyNode
  | funcDef : String → PyNodes → PyNode

/-- Sibling definitions in document order. -/
inductive PyNodes where
  | nil : PyNodes
  | cons : PyNode → PyNodes → PyNodes
end

/-- `_SymbolCollector._qualname`: dot-join the class stack and the name
(just the name when the stack is empty). -/
def qualName (stack : List String) (name : String) : String :=
  if stack.isEmpty then name else String.intercalate "." (stack ++ [name])

mutual
/-- The visit of `_SymbolCollector`: entering a class records a `class`
symbol then pushes the class name onto the stack for its body (popped on
leave); entering a function records `method` when the class stack is
non-empty else `function`, and visits its body with the stack unchanged
(functions are never pushed). Yields `(qualified name, kind)` pairs in visit
order. -/
def collectNode (stack : List String) : PyNode → List (String × String)
  | .classDef n b => (qualName stack n, "class") :: collectNodes (stack ++ [n]) b
  | .funcDef n b =>
      (qualName stack n, if stack.isEmpty then "function" else "method")
        :: collectNodes stack b

/-- Visit siblings left to right. -/
def collectNodes (stack : List String) : PyNodes → List (String × String)
  | .nil => []
  | .cons d ds => collectNode stack d ++ collectNodes stack ds
end

/-- The `records` dict built by `_SymbolCollector` from a file's top-level
definitions: visit-order insertion with last-wins overwrite. -/
def recordsOf (ns : PyNodes) : List (String × String) :=
  (collectNodes [] ns).foldl insertLastWins []

/-- A symbol record as consumed by the tree builders (`qualname`, `kind`,
and the text `get_source_with_context(rec, before=0, after=0)` /
`get_source(rec)` extracts for it). -/
structure SymEntry where
  qualname : String
  kind : String
  src : String
deriving DecidableEq

/-- One indexed file as exposed by the parser to `build_from_parser`:
its id (path relative to the root), file name, cached source, and
`list_symbols` output in collector order. -/
structure PFile where
  fileId : String
  name : String
  src : String
  syms : List SymEntry
deriving DecidableEq

/-- `CodeSemanticTree.add_child` (via `CodeNode.add_child` and `add_node`):
append the child id to the parent's `children`, set the child's `parent`,
and store the child in `nodes` (Python raises `KeyError` for an unknown
parent id; the builders below always pass existing parents, so the model
returns the tree unchanged there). -/
def addChildT (t : CTree) (parentId : String) (child : CodeNode) : CTree :=
  match List.lookup parentId t.nodes with
  | none => t
  | some p =>
      let ns := updateVal t.nodes parentId { p with children := p.children ++ [child.id] }
      ⟨insertLastWins ns (child.id, { child with parent := some parentId }), t.rootId⟩

/-- A class/function/method node as created by `build_from_parser` and
`_rebuild_file_branch`. -/
def symNode (nodeId qualname kind src : String) : CodeNode :=
  { id := nodeId, name := qualname, kind := kind, parent := none, children := [],
    source := some src, summary := none }

/-- Python's `split(".")` on the code-point list (kernel-computable). -/
def splitDots : List Char → List (List Char)
  | [] => [[]]
  | c :: rest =>
      if c = '.' then [] :: splitDots rest
      else
        match splitDots rest with
        | [] => [[c]]
        | g :: gs => (c :: g) :: gs

/-- `".".join(rec.qualname.split(".")[:-1])`: the enclosing class path of a
method's qualified name. -/
def classNameOf (qn : String) : String :=
  String.intercalate "." (((splitDots qn.toList).map String.mk).dropLast)

/-- The per-file loop body of `CodeSemanticTree.build_from_parser`: add the
file node under the root, then walk the file's symbols in order — classes
attach under the file node and register in `class_ids`; methods attach under
`class_ids.get(cls_name, file_id)`; functions attach under the file node. -/
def addFileBranch (t : CTree) (f : PFile) : CTree :=
  let fileNode : CodeNode :=
    { id := f.fileId, name := f.name, kind := "file", parent := none,
      children := [], source := some f.src, summary := none }
  let t1 := addChildT t "root" fileNode
  (f.syms.foldl (fun acc r =>
      let nodeId := f.fileId ++ "::" ++ r.qualname
      if r.kind == "class" then
        (addChildT acc.1 f.fileId (symNode nodeId r.qualname "class" r.src),
         acc.2 ++ [(r.qualname, nodeId)])
      else if r.kind == "function" || r.kind == "method" then
        let parentId :=
          if r.kind == "method" then
            match List.lookup (classNameOf r.qualname) acc.2 with
            | some pid => pid
            | none => f.fileId
          else f.fileId
        (addChildT acc.1 parentId (symNode nodeId r.qualname r.kind r.src), acc.2)
      else (acc.1, acc.2))
    (t1, ([] : List (String × String)))).1

/-- `CodeSemanticTree.build_from_parser` over the parser's indexed files,
starting from the tree `__init__` creates: a single root node with id
`"root"` and kind `"project"`. -/
def buildFromParser (files : List PFile) (projectName : String) : CTree :=
  let rootNode : CodeNode :=
    { id := "root", name := projectName, kind := "project", parent := none,
      children := [], source := none, summary := none }
  files.foldl addFileBranch ⟨[("root", rootNode)], "root"⟩

/-- Python's `str.startswith`: the code points of `pre` are an initial
segment of those of `s`. -/
def strStartsWith (s pre : String) : Bool :=
  s.toList.take pre.length == pre.toList

/-- `CodeSemanticTree._rebuild_file_branch`: pop every node whose id starts
with `file_id + "::"` from `nodes` (the file node's `children` list is not
touched), then re-attach a node per refreshed symbol — classes under the
file node; methods under `f"{file_id}::{cls_name}"` when that id is present
in `nodes`, else under the file node; functions under the file node. -/
def rebuildFileBranch (t : CTree) (fileId : String) (syms : List SymEntry) : CTree :=
  let kept := t.nodes.filter (fun p => !(strStartsWith p.1 (fileId ++ "::")))
  syms.foldl (fun tt r =>
      let nodeId := fileId ++ "::" ++ r.qualname
      if r.kind == "class" then addChildT tt fileId (symNode nodeId r.qualname "class" r.src)
      else if r.kind == "function" || r.kind == "method" then
        let node := symNode nodeId r.qualname r.kind r.src
        if r.kind == "method" then
          let parentId := fileId ++ "::" ++ classNameOf r.qualname
          if (List.lookup parentId tt.nodes).isSome then addChildT tt parentId node
          else addChildT tt fileId node
        else addChildT tt fileId node
      else tt)
    ⟨kept, t.rootId⟩

/-- A symbol record as stored in a file's symbol table, for
`ProjectParser.resolve` (the claims compare records only by identity of the
returned entry). -/
structure SymInfo where
  qualname : String
  kind : String
deriving DecidableEq

/-- The error of `ProjectParser.resolve`: the missing symbol path and the
sorted listing of available names included in the message. -/
inductive ResolveErr where
  | symbolNotFound : String → List String → ResolveErr
deriving DecidableEq

/-- Insert into an ascending-sorted list of strings. -/
def insSortedStr (x : String) : List String → List String
  | [] => [x]
  | y :: ys => if x ≤ y then x :: y :: ys else y :: insSortedStr x ys

/-- Ascending sort of strings (`sorted(recs.keys())`). -/
def sortStrings : List String → List String
  | [] => []
  | x :: xs => insSortedStr x (sortStrings xs)

/-- `ProjectParser.resolve` on an indexed file's symbol table: exact match
first; on a miss, retry with the whitespace-stripped symbol path; on a
continued miss, fail with a `SymbolNotFound` error listing all available
names (sorted), never falling back to another symbol. -/
def resolveSymbol (recs : List (String × SymInfo)) (symbolPath : String) :
    Except ResolveErr SymInfo :=
  match List.lookup symbolPath recs with
  | some r => .ok r
  | none =>
      match List.lookup (pyStrip symbolPath) recs with
      | some r => .ok r
      | none =>
          .error (.symbolNotFound symbolPath (sortStrings (recs.map Prod.fst)))

/-- The estimated total token cost of a returned context mapping: the sum
over returned texts of `max(1, len(text) // 4)`. -/
def estTokens (out : List (String × String)) : Nat :=
  (out.map (fun p => max 1 (p.2.length / 4))).sum

/-- Sum of `_approx_tokens` over a context mapping (the quantity tracked by
`used_tokens`). -/
def usedTokens (out : List (String × String)) : Nat :=
  (out.map (fun p => approxTokens p.2)).sum

/-- Concrete fixture: a one-statement block `x = 1` as parsed from the
`new_code` `"x = 1"`. -/
def insertX1 : Stmts := Stmts.cons (Stmt.simple [] ["x = 1"]) Stmts.nil

/-- Concrete fixture (counterexample to the original C1 claim): a module
with one function whose first body statement carries a leading blank line,
so its libcst position starts one line below the block's first rendered
line. -/
def c1Items : List TopItem :=
  [TopItem.funcItem "f" "    " ["def f():"]
    (Stmts.cons (Stmt.simple [""] ["pass"]) Stmts.nil)]

/-- Concrete fixture (C1 witness): the same function without leading trivia. -/
def c1wItems : List TopItem :=
  [TopItem.funcItem "f" "    " ["def f():"]
    (Stmts.cons (Stmt.simple [] ["pass"]) Stmts.nil)]

/-- Concrete fixture (C2): a function whose body is the single compound
statement `if cond:` containing only `pass`. -/
def c2Items : List TopItem :=
  [TopItem.funcItem "f" "    " ["def f():"]
    (Stmts.cons
      (Stmt.compound true [] ["if cond:"]
        (Stmts.cons (Stmt.simple [] ["pass"]) Stmts.nil) [])
      Stmts.nil)]

/-- Concrete fixture (C3): a one-function module. -/
def c3Items : List TopItem :=
  [TopItem.funcItem "g" "    " ["def g():"]
    (Stmts.cons (Stmt.simple [] ["pass"]) Stmts.nil)]

/-- Concrete fixture (C3): the parser state caching that module. -/
def c3State : PState := [("a.py", PDoc.mk (renderItems c3Items) c3Items)]

/-- Concrete fixture (C9): a cached single-function module. -/
def c9State : PState :=
  [("a.py", PDoc.mk (renderItems c1wItems) c1wItems)]

/-- Concrete fixture (C5 counterexample): a tree whose root carries the
empty string as source. -/
def c5EmptyTree : CTree :=
  ⟨[("root", { id := "root", name := "P", kind := "project", source := some "" })], "root"⟩

/-- Concrete fixture (C5 witness): a three-node tree with sources and a
summary. -/
def c5wTree : CTree :=
  ⟨[("root", { id := "root", name := "P", kind := "project", children := ["a.py"] }),
    ("a.py", { id := "a.py", name := "a.py", kind := "file", parent := some "root",
               children := ["a.py::f"], source := some "src", summary := some "sum" }),
    ("a.py::f", { id := "a.py::f", name := "f", kind := "function",
                  parent := some "a.py", source := some "def f(): ..." })], "root"⟩

/-- Concrete fixture (C5 witness): the dict `to_json` exports for
`c5wTree` (id, name, kind, summary, source, children). -/
def c5wDict : NodeDict :=
  NodeDict.mk "root" "P" "project" none none
    (NodeDicts.cons
      (NodeDict.mk "a.py" "a.py" "file" (some "sum") (some "src")
        (NodeDicts.cons
          (NodeDict.mk "a.py::f" "f" "function" none (some "def f(): ...")
            NodeDicts.nil)
          NodeDicts.nil))
      NodeDicts.nil)

/-- Concrete fixture (C6): file A's definitions,
`class C: def m(self): pass`. -/
def c6PyA : PyNodes :=
  PyNodes.cons
    (PyNode.classDef "C" (PyNodes.cons (PyNode.funcDef "m" PyNodes.nil) PyNodes.nil))
    PyNodes.nil

/-- Concrete fixture (C6): file B's definitions, `def f(): pass`. -/
def c6PyB : PyNodes :=
  PyNodes.cons (PyNode.funcDef "f" PyNodes.nil) PyNodes.nil

/-- Concrete fixture (C6): file A as indexed (symbols in collector order). -/
def c6FileA : PFile :=
  ⟨"a.py", "a.py", "class C:\n    def m(self): pass",
    (recordsOf c6PyA).map (fun p => ⟨p.1, p.2, ""⟩)⟩

/-- Concrete fixture (C6): file B as indexed. -/
def c6FileB : PFile :=
  ⟨"b.py", "b.py", "def f(): pass",
    (recordsOf c6PyB).map (fun p => ⟨p.1, p.2, ""⟩)⟩

/-- Concrete fixture (C6): the built semantic tree. -/
def c6Tree : CTree := buildFromParser [c6FileA, c6FileB] "Project"

/-- Concrete fixture (C7): a synced tree for a file `a.py` holding one
function `f` — the state reached by building the tree and then, through
`tree.edit_symbol` on `f`, inserting a new declaration `def helper(): ...`
into `a.py` (the parser index now lists `f` and `helper`; the tree still has
only `f`, so the next tree-level edit of `helper` triggers
`_rebuild_file_branch`). -/
def c7Tree : CTree :=
  ⟨[("root", { id := "root", name := "P", kind := "project", children := ["a.py"] }),
    ("a.py", { id := "a.py", name := "a.py", kind := "file", parent := some "root",
               children := ["a.py::f"], source := some "def f(): ...\ndef helper(): ..." }),
    ("a.py::f", { id := "a.py::f", name := "f", kind := "function",
                  parent := some "a.py", source := some "def f(): ..." })], "root"⟩

/-- Concrete fixture (C7): the refreshed symbol list of `a.py` after the
insert. -/
def c7Syms : List SymEntry :=
  [⟨"f", "function", "def f(): ..."⟩, ⟨"helper", "function", "def helper(): ..."⟩]

/-- Concrete fixture (C8): a two-symbol table. -/
def c8Recs : List (String × SymInfo) :=
  [("C", ⟨"C", "class"⟩), ("C.m", ⟨"C.m", "method"⟩)]

/-- Concrete fixture (C10): a tree whose root has an eight-character
source. -/
def c10Tree : CTree :=
  ⟨[("root", { id := "root", name := "P", kind := "project",
               source := some "abcdefgh" })], "root"⟩

/-- Invariant of the collector state maintained by `try_add`: `used_tokens`
equals the token sum of `out`, stays within the budget, and every collected
text is non-empty. -/
def ccOK (budget : Nat) (st : CCState) : Prop :=
  st.used = usedTokens st.out ∧ st.used ≤ budget ∧ ∀ p ∈ st.out, p.2 ≠ ""

/-! ## Supporting lemmas for the structural editor -/

theorem renderItems_append (l1 l2 : List TopItem) :
    renderItems (l1 ++ l2) = renderItems l1 ++ renderItems l2 := by
  induction l1 with
  | nil => simp [renderItems]
  | cons it rest ih => simp [renderItems, ih]

theorem itemsLines_append (l1 l2 : List TopItem) :
    itemsLines (l1 ++ l2) = itemsLines l1 + itemsLines l2 := by
  induction l1 with
  | nil => simp [itemsLines]
  | cons it rest ih => simp [itemsLines, ih]; omega

theorem stmtsLines_append (b : Stmts) :
    ∀ a : Stmts, stmtsLines (a.appendS b) = stmtsLines a + stmtsLines b
  | .nil => by simp [Stmts.appendS, stmtsLines]
  | .cons s rest => by
      have ih := stmtsLines_append b rest
      simp [Stmts.appendS, stmtsLines, ih]; omega

theorem stmtStartLines_append (b : Stmts) :
    ∀ (a : Stmts) (L : Nat),
      stmtStartLines (a.appendS b) L
        = stmtStartLines a L ++ stmtStartLines b (L + stmtsLines a)
  | .nil, L => by simp [Stmts.appendS, stmtStartLines, stmtsLines]
  | .cons s rest, L => by
      have ih := stmtStartLines_append b rest (L + stmtLines s)
      simp only [Stmts.appendS, stmtStartLines, List.cons_append, ih, stmtsLines]
      rw [show L + stmtLines s + stmtsLines rest
            = L + ((leadingOf s).length + contentLines s + stmtsLines rest) from by
          simp only [stmtLines]; omega]

theorem stmtStartLines_length :
    ∀ (a : Stmts) (L : Nat), (stmtStartLines a L).length = a.lenS
  | .nil, _ => rfl
  | .cons s rest, L => by
      have ih := stmtStartLines_length rest (L + stmtLines s)
      simp [stmtStartLines, Stmts.lenS, ih]

theorem editItems_noMatch (tgt : String) (relLine : Nat) (mode : EMode) (ns : Stmts) :
    ∀ (items : List TopItem) (line : Nat), noFuncNamed tgt items = true →
      editItems tgt relLine mode ns items line = .ok items := by
  intro items
  induction items with
  | nil => intro line _; rfl
  | cons it rest ih =>
      intro line h
      simp only [noFuncNamed, List.all_cons, Bool.and_eq_true] at h
      cases it with
      | raw ls =>
          have := ih (line + ls.length) (by simpa [noFuncNamed] using h.2)
          simp [editItems, this]
      | funcItem q ind header body =>
          have hq : ¬ (q = tgt) := by simpa [bne_iff_ne] using h.1
          have := ih (line + header.length + stmtsLines body)
            (by simpa [noFuncNamed] using h.2)
          simp [editItems, hq, this]

theorem editItems_append (tgt : String) (relLine : Nat) (mode : EMode) (ns : Stmts) :
    ∀ (l1 l2 : List TopItem) (line : Nat), noFuncNamed tgt l1 = true →
      editItems tgt relLine mode ns (l1 ++ l2) line
        = match editItems tgt relLine mode ns l2 (line + itemsLines l1) with
          | .ok r => .ok (l1 ++ r)
          | .error e => .error e := by
  intro l1
  induction l1 with
  | nil =>
      intro l2 line _
      simp only [List.nil_append, itemsLines, Nat.add_zero]
      cases editItems tgt relLine mode ns l2 line <;> simp
  | cons it rest ih =>
      intro l2 line h
      simp only [noFuncNamed, List.all_cons, Bool.and_eq_true] at h
      cases it with
      | raw ls =>
          have hrec := ih l2 (line + ls.length) (by simpa [noFuncNamed] using h.2)
          simp only [List.cons_append, List.append_eq, editItems, itemsLines, itemLines,
            show line + (ls.length + itemsLines rest)
              = line + ls.length + itemsLines rest from by omega]
          rw [hrec]
          cases editItems tgt relLine mode ns l2 (line + ls.length + itemsLines rest) <;> rfl
      | funcItem q ind header body =>
          have hq : ¬ (q = tgt) := by simpa [bne_iff_ne] using h.1
          have hrec := ih l2 (line + header.length + stmtsLines body)
            (by simpa [noFuncNamed] using h.2)
          simp only [List.cons_append, List.append_eq, editItems, hq, if_false, itemsLines, itemLines,
            show line + (header.length + stmtsLines body + itemsLines rest)
              = line + header.length + stmtsLines body + itemsLines rest from by omega]
          rw [hrec]
          cases editItems tgt relLine mode ns l2
              (line + header.length + stmtsLines body + itemsLines rest) <;> rfl

theorem funcBodyStartLines_skip (tgt : String) :
    ∀ (l1 l2 : List TopItem) (line : Nat), noFuncNamed tgt l1 = true →
      funcBodyStartLines (l1 ++ l2) tgt line
        = funcBodyStartLines l2 tgt (line + itemsLines l1) := by
  intro l1
  induction l1 with
  | nil => intro l2 line _; simp [itemsLines]
  | cons it rest ih =>
      intro l2 line h
      simp only [noFuncNamed, List.all_cons, Bool.and_eq_true] at h
      cases it with
      | raw ls =>
          have hrec := ih l2 (line + ls.length) (by simpa [noFuncNamed] using h.2)
          simp only [List.cons_append, List.append_eq, funcBodyStartLines, itemsLines, itemLines,
            show line + (ls.length + itemsLines rest)
              = line + ls.length + itemsLines rest from by omega]
          exact hrec
      | funcItem q ind header body =>
          have hq : (q == tgt) = false := by
            simpa [beq_eq_false_iff_ne, bne_iff_ne] using h.1
          have hrec := ih l2 (line + header.length + stmtsLines body)
            (by simpa [noFuncNamed] using h.2)
          simp only [List.cons_append, List.append_eq, funcBodyStartLines, hq, Bool.false_eq_true, if_false,
            itemsLines, itemLines,
            show line + (header.length + stmtsLines body + itemsLines rest)
              = line + header.length + stmtsLines body + itemsLines rest from by omega]
          exact hrec

theorem spliceAtPath_replace_oob (ns : Stmts) :
    ∀ (path : List Nat) (idx : Nat) (stmts sub : Stmts),
      bodyAtPath stmts path = some sub → sub.lenS ≤ idx →
      spliceAtPath EMode.replace ns path idx stmts
        = Except.error EditError.editOutOfRange := by
  intro path
  induction path with
  | nil =>
      intro idx stmts sub h hle
      simp only [bodyAtPath, Option.some_inj] at h
      subst h
      simp [spliceAtPath, hle]
  | cons i rest ih =>
      intro idx stmts sub h hle
      simp only [bodyAtPath] at h
      cases hg : stmts.getS i with
      | none => rw [hg] at h; exact absurd h (by simp)
      | some s =>
          rw [hg] at h
          cases s with
          | simple l ls => exact absurd h (by simp)
          | compound d l hd b tl =>
              have := ih idx b sub h hle
              simp [spliceAtPath, hg, this]

theorem normalizeNewCode_append_nl (cs : List Char) (h : endsWithNL cs = false) :
    normalizeNewCode cs = normalizeNewCode (cs ++ ['\n']) := by
  have h2 : endsWithNL (cs ++ ['\n']) = true := by
    simp [endsWithNL]
  simp [normalizeNewCode, h, h2]

/-- Claim C9 (confirmed): `ProjectParser.edit_symbol` normalizes `new_code`
by appending a newline when absent before parsing it, so for every cached
state, file, symbol, relative line and mode, the call produces the same
result whether or not the caller's `new_code` ends with a trailing
newline. -/
theorem edit_symbol_trailing_newline (parse : List Char → Stmts) (st : PState)
    (file sym : String) (relLine : Nat) (mode : EMode) (cs : List Char)
    (h : endsWithNL cs = false) :
    editSymbolState parse st file sym relLine cs mode
      = editSymbolState parse st file sym relLine (cs ++ ['\n']) mode := by
  unfold editSymbolState
  rw [normalizeNewCode_append_nl cs h]

/-- Witness for C9 at a concrete input: `"x = 1"` has no trailing newline,
and the edit result equals the one for `"x = 1\n"`. -/
theorem edit_symbol_trailing_newline_witness :
    endsWithNL "x = 1".data = false ∧
      editSymbolState (fun _ => Stmts.nil) c9State "a.py" "f" 0 "x = 1".data EMode.insert
        = editSymbolState (fun _ => Stmts.nil) c9State "a.py" "f" 0
            ("x = 1".data ++ ['\n']) EMode.insert :=
  ⟨by decide,
   edit_symbol_trailing_newline (fun _ => Stmts.nil) c9State "a.py" "f" 0
     EMode.insert "x = 1".data (by decide)⟩

/-- Claim C3 (confirmed): when the resolved insertion point of a
`mode=replace` edit is the index equal to (or past) the number of statements
in the target statement list — the resolver's append position — the edit
fails with the out-of-range error, and since every cache write in
`edit_symbol` happens only after the transform returns, the cached document
(source text, parsed module, symbol table) is unchanged by the failed call:
the call returns the bare error and no new state. -/
theorem edit_symbol_replace_out_of_range
    (parse : List Char → Stmts) (st : PState) (file tgt : String) (doc : PDoc)
    (pre post : List TopItem) (ind : String) (header : List String) (body : Stmts)
    (relLine : Nat) (newCode : List Char)
    (path : List Nat) (idx : Nat) (ex : Bool) (sub : Stmts)
    (hDoc : List.lookup file st = some doc)
    (hItems : doc.items = pre ++ TopItem.funcItem tgt ind header body :: post)
    (hPre : noFuncNamed tgt pre = true)
    (hRes : descendStmts (1 + itemsLines pre + 1 + relLine) body []
        (1 + itemsLines pre + header.length) 0 = (path, idx, ex))
    (hPath : bodyAtPath body path = some sub)
    (hIdx : sub.lenS ≤ idx) :
    editSymbolState parse st file tgt relLine newCode EMode.replace
      = Except.error EditError.editOutOfRange := by
  unfold editSymbolState
  rw [hDoc]
  simp only
  rw [hItems, editItems_append tgt relLine EMode.replace
    (parse (normalizeNewCode newCode)) pre
    (TopItem.funcItem tgt ind header body :: post) 1 hPre]
  have hsplice := spliceAtPath_replace_oob (parse (normalizeNewCode newCode))
    path idx body sub hPath hIdx
  simp only [editItems, if_pos rfl, editFunction, hRes, hsplice]
  simp

/-- Witness for C3 at a concrete input: in the cached one-function module,
`relative_line = 5` resolves past the single-statement body (index 1 =
statement count), and the replace edit returns the out-of-range error. -/
theorem edit_symbol_replace_out_of_range_witness :
    Stmts.lenS (Stmts.cons (Stmt.simple [] ["pass"]) Stmts.nil) ≤ 1 ∧
      editSymbolState (fun _ => Stmts.nil) c3State "a.py" "g" 5 [] EMode.replace
        = Except.error EditError.editOutOfRange :=
  ⟨by decide,
   edit_symbol_replace_out_of_range (fun _ => Stmts.nil) c3State "a.py" "g"
     (PDoc.mk (renderItems c3Items) c3Items) [] [] "    " ["def g():"]
     (Stmts.cons (Stmt.simple [] ["pass"]) Stmts.nil) 5 [] [] 1 false
     (Stmts.cons (Stmt.simple [] ["pass"]) Stmts.nil)
     rfl rfl (by decide) (by decide) rfl (by decide)⟩

/-- Claim C2 (corrected): inserting `"x = 1"` with `relative_line = 1` into a
function whose body is the single compound statement `if cond:` containing
only `pass` (the visible line 1 after the declaration line) lands the new
statement inside the `if` block — not after the `if` statement itself — but
*immediately before* `pass` (at the block's first position), since the
resolver hits `pass`'s start line exactly and `insert` splices before the hit
statement. -/
theorem edit_insert_into_if (tgt ind dh ih : String) :
    editItems tgt 1 EMode.insert (Stmts.cons (Stmt.simple [] ["x = 1"]) Stmts.nil)
        [TopItem.funcItem tgt ind [dh]
          (Stmts.cons (Stmt.compound true [] [ih]
            (Stmts.cons (Stmt.simple [] ["pass"]) Stmts.nil) []) Stmts.nil)] 1
      = Except.ok
        [TopItem.funcItem tgt ind [dh]
          (Stmts.cons (Stmt.compound true [] [ih]
            (Stmts.cons (Stmt.simple [] ["x = 1"])
              (Stmts.cons (Stmt.simple [] ["pass"]) Stmts.nil)) []) Stmts.nil)] := by
  simp [editItems, editFunction, descendStmts, intoStmt, contentLines, stmtsLines,
    leadingOf, isDescendable, spliceAtPath, Stmts.getS, Stmts.setS, Stmts.takeS,
    Stmts.dropS, Stmts.appendS, containsFunc]

/-- Counterexample to C2 as stated: on the concrete scenario the rendered
result places `x = 1` on the line before `pass` inside the `if` block, which
differs from the placement the claim describes (after `pass`). -/
theorem edit_insert_into_if_counterexample :
    (match editItems "f" 1 EMode.insert insertX1 c2Items 1 with
     | .ok its => some (renderItems its)
     | .error _ => none)
      = some ["def f():", "    if cond:", "        x = 1", "        pass"]
    ∧ some ["def f():", "    if cond:", "        x = 1", "        pass"]
        ≠ some ["def f():", "    if cond:", "        pass", "        x = 1"] :=
  ⟨rfl, by decide⟩

theorem descend_first (target : Nat) (s : Stmt) (rest : Stmts) (path : List Nat)
    (line i : Nat) (h : target ≤ line + (leadingOf s).length) :
    descendStmts target (Stmts.cons s rest) path line i
      = (path, i, decide (target = line + (leadingOf s).length)) := by
  simp only [descendStmts]
  rw [if_pos h]

theorem stmtStartLines_get_append (b0 : Stmt) (rest : Stmts) :
    ∀ (a : Stmts) (L : Nat),
      (stmtStartLines (a.appendS (Stmts.cons b0 rest)) L).get? a.lenS
        = some (L + stmtsLines a + (leadingOf b0).length) := by
  intro a L
  rw [stmtStartLines_append]
  rw [List.get?_eq_getElem?, List.getElem?_append_right (by rw [stmtStartLines_length]), ← List.get?_eq_getElem?]
  rw [stmtStartLines_length]
  simp [stmtStartLines, Nat.add_assoc]

/-- Claim C1 (corrected): for a module whose target function occurs once,
`edit_symbol` with `mode=insert, relative_line=0` places the new statements
as the first statements of the function body; every rendered line outside
the edited function is byte-identical to the pre-edit rendering (the
surrounding items render unchanged); the previously-first body statement's
start line is pushed down by exactly the inserted block's line count — it
begins on the line immediately after the inserted block exactly when it
carries no leading blank/comment lines, since libcst positions exclude
leading trivia, which otherwise still renders between the inserted block and
the statement. -/
theorem edit_insert_at_zero (tgt ind : String) (header : List String) (b0 : Stmt)
    (rest ns : Stmts) (pre post : List TopItem)
    (hH : header ≠ []) (hPre : noFuncNamed tgt pre = true)
    (hPost : noFuncNamed tgt post = true) :
    editItems tgt 0 EMode.insert ns
        (pre ++ TopItem.funcItem tgt ind header (Stmts.cons b0 rest) :: post) 1
      = Except.ok (pre ++ TopItem.funcItem tgt ind header
          (ns.appendS (Stmts.cons b0 rest)) :: post)
    ∧ renderItems (pre ++ TopItem.funcItem tgt ind header
          (ns.appendS (Stmts.cons b0 rest)) :: post)
        = renderItems pre
            ++ (header ++ renderStmts ind (ns.appendS (Stmts.cons b0 rest)))
            ++ renderItems post
    ∧ renderItems (pre ++ TopItem.funcItem tgt ind header (Stmts.cons b0 rest) :: post)
        = renderItems pre ++ (header ++ renderStmts ind (Stmts.cons b0 rest))
            ++ renderItems post
    ∧ (funcBodyStartLines
          (pre ++ TopItem.funcItem tgt ind header (Stmts.cons b0 rest) :: post) tgt 1).bind
          (fun l => l.get? 0)
        = some (1 + itemsLines pre + header.length + (leadingOf b0).length)
    ∧ (funcBodyStartLines
          (pre ++ TopItem.funcItem tgt ind header (ns.appendS (Stmts.cons b0 rest)) :: post)
          tgt 1).bind (fun l => l.get? ns.lenS)
        = some (1 + itemsLines pre + header.length + stmtsLines ns + (leadingOf b0).length)
    ∧ (leadingOf b0 = [] →
        (funcBodyStartLines
            (pre ++ TopItem.funcItem tgt ind header (ns.appendS (Stmts.cons b0 rest)) :: post)
            tgt 1).bind (fun l => l.get? ns.lenS)
          = some (1 + itemsLines pre + header.length + stmtsLines ns)) := by
  have hlen : 0 < header.length := List.length_pos.mpr hH
  have hres := descend_first (1 + itemsLines pre + 1 + 0) b0 rest []
    (1 + itemsLines pre + header.length) 0 (by omega)
  have hfun : editFunction (1 + itemsLines pre) 0 EMode.insert ns header
      (Stmts.cons b0 rest) = .ok (ns.appendS (Stmts.cons b0 rest)) := by
    simp only [editFunction, hres]
    simp [spliceAtPath, Stmts.takeS, Stmts.dropS, Stmts.appendS]
  refine ⟨?_, ?_, ?_, ?_, ?_, ?_⟩
  · rw [editItems_append tgt 0 EMode.insert ns pre _ 1 hPre]
    simp only [editItems, if_pos rfl, hfun,
      editItems_noMatch tgt 0 EMode.insert ns post _ hPost]
    simp
  · simp [renderItems_append, renderItems, renderItem, List.append_assoc]
  · simp [renderItems_append, renderItems, renderItem, List.append_assoc]
  · rw [funcBodyStartLines_skip tgt pre _ 1 hPre]
    simp [funcBodyStartLines, stmtStartLines, Nat.add_assoc]
  · rw [funcBodyStartLines_skip tgt pre _ 1 hPre]
    simp only [funcBodyStartLines, beq_self_eq_true, if_pos, Option.bind_some,
      Option.some_bind]
    rw [stmtStartLines_get_append]
  · intro hlead
    rw [funcBodyStartLines_skip tgt pre _ 1 hPre]
    simp only [funcBodyStartLines, beq_self_eq_true, if_pos, Option.bind_some,
      Option.some_bind]
    rw [stmtStartLines_get_append]
    simp [hlead]

/-- Witness for C1 at a concrete input: a one-function module with a
trivia-free body; the insert lands first and the `pass` statement moves from
line 2 to line 3, immediately after the one-line inserted block. -/
theorem edit_insert_at_zero_witness :
    (["def f():"] : List String) ≠ [] ∧
      editItems "f" 0 EMode.insert insertX1 c1wItems 1
        = Except.ok [TopItem.funcItem "f" "    " ["def f():"]
            (insertX1.appendS (Stmts.cons (Stmt.simple [] ["pass"]) Stmts.nil))] :=
  ⟨by decide,
   (edit_insert_at_zero "f" "    " ["def f():"] (Stmt.simple [] ["pass"])
     Stmts.nil insertX1 [] [] (by decide) (by decide) (by decide)).1⟩

/-- Counterexample to C1 as stated: when the previously-first body statement
carries a leading blank line, the edited body's statements start at lines 2
(the inserted `x = 1`) and 4 (`pass`) — `pass` does not begin on line 3, the
line immediately after the one-line inserted block, because its leading
blank line renders in between. -/
theorem edit_insert_at_zero_counterexample :
    (match editItems "f" 0 EMode.insert insertX1 c1Items 1 with
     | .ok its => some (renderItems its)
     | .error _ => none)
      = some ["def f():", "    x = 1", "", "    pass"]
    ∧ (match editItems "f" 0 EMode.insert insertX1 c1Items 1 with
       | .ok its => funcBodyStartLines its "f" 1
       | .error _ => none)
      = some [2, 4]
    ∧ (4 : Nat) ≠ 2 + stmtsLines insertX1 :=
  ⟨rfl, rfl, by decide⟩

/-! ## Supporting lemmas for collect_context -/

theorem usedTokens_append_one (out : List (String × String)) (nid text : String) :
    usedTokens (out ++ [(nid, text)]) = usedTokens out + approxTokens text := by
  simp [usedTokens]

theorem tryAdd_ccOK (t : List (String × CodeNode)) (mode : String) (budget : Nat)
    (st : CCState) (nid : String) (h : ccOK budget st) :
    ccOK budget (tryAdd t mode budget st nid) := by
  obtain ⟨h1, h2, h3⟩ := h
  unfold tryAdd
  split
  · exact ⟨h1, h2, h3⟩
  · split
    · exact ⟨h1, h2, h3⟩
    · rename_i node _
      split
      · exact ⟨h1, h2, h3⟩
      · rename_i hne
        split
        · rename_i hfit
          refine ⟨?_, hfit, ?_⟩
          · simp [usedTokens_append_one, h1]
          · intro p hp
            rcases List.mem_append.mp hp with hm | hm
            · exact h3 p hm
            · simp only [List.mem_singleton] at hm
              subst hm
              simpa using hne
        · exact ⟨h1, h2, h3⟩

theorem foldl_tryAdd_ccOK (t : List (String × CodeNode)) (mode : String) (budget : Nat) :
    ∀ (l : List String) (st : CCState), ccOK budget st →
      ccOK budget (l.foldl (tryAdd t mode budget) st) := by
  intro l
  induction l with
  | nil => intro st h; exact h
  | cons x xs ih => intro st h; exact ih _ (tryAdd_ccOK t mode budget st x h)

theorem foldlIf_tryAdd_ccOK (t : List (String × CodeNode)) (mode : String) (budget : Nat)
    (c : Prop) [Decidable c] (l : List String) (st : CCState) (h : ccOK budget st) :
    ccOK budget (if c then l.foldl (tryAdd t mode budget) st else st) := by
  by_cases hc : c
  · rw [if_pos hc]; exact foldl_tryAdd_ccOK t mode budget l st h
  · rw [if_neg hc]; exact h

theorem ifTryAdd_ccOK (t : List (String × CodeNode)) (mode : String) (budget : Nat)
    (c : Prop) [Decidable c] (nid : String) (st : CCState) (h : ccOK budget st) :
    ccOK budget (if c then tryAdd t mode budget st nid else st) := by
  by_cases hc : c
  · rw [if_pos hc]; exact tryAdd_ccOK t mode budget st nid h
  · rw [if_neg hc]; exact h

theorem stepNode_ccOK (t : List (String × CodeNode)) (mode : String) (budget : Nat)
    (order : List String) (query : String) (scoreFn : String → CodeNode → Int)
    (st : CCState) (nid : String) (h : ccOK budget st) :
    ccOK budget (stepNode t mode budget order query scoreFn st nid) := by
  unfold stepNode
  exact foldlIf_tryAdd_ccOK t mode budget _ _ _
    (foldlIf_tryAdd_ccOK t mode budget _ _ _
      (ifTryAdd_ccOK t mode budget _ _ _
        (foldlIf_tryAdd_ccOK t mode budget _ _ _ h)))

theorem ccLoop_ccOK (t : List (String × CodeNode)) (mode : String) (budget : Nat)
    (order : List String) (query : String) (scoreFn : String → CodeNode → Int) :
    ∀ (fuel : Nat) (st : CCState) (visited frontier : List String), ccOK budget st →
      usedTokens (ccLoop t mode budget order query scoreFn fuel st visited frontier) ≤ budget
      ∧ ∀ p ∈ ccLoop t mode budget order query scoreFn fuel st visited frontier, p.2 ≠ "" := by
  intro fuel
  induction fuel with
  | zero =>
      intro st visited frontier h
      exact ⟨h.1 ▸ h.2.1, h.2.2⟩
  | succ fuel ih =>
      intro st visited frontier h
      unfold ccLoop
      cases frontier with
      | nil => exact ⟨h.1 ▸ h.2.1, h.2.2⟩
      | cons nid rest =>
          by_cases hb : budget ≤ st.used
          · simp only [if_pos hb]
            exact ⟨h.1 ▸ h.2.1, h.2.2⟩
          · simp only [if_neg hb]
            by_cases hv : visited.contains nid = true
            · simp only [if_pos hv]
              exact ih st visited rest h
            · simp only [if_neg hv]
              exact ih _ _ _ (stepNode_ccOK t mode budget order query scoreFn st nid h)

theorem estTokens_eq_usedTokens :
    ∀ (out : List (String × String)), (∀ p ∈ out, p.2 ≠ "") →
      estTokens out = usedTokens out := by
  intro out
  induction out with
  | nil => intro _; rfl
  | cons p ps ih =>
      intro h
      have hp : p.2 ≠ "" := h p (List.mem_cons_self p ps)
      have hps := ih (fun q hq => h q (List.mem_cons_of_mem p hq))
      rw [show estTokens (p :: ps) = max 1 (p.2.length / 4) + estTokens ps from by
            simp [estTokens],
          show usedTokens (p :: ps) = approxTokens p.2 + usedTokens ps from by
            simp [usedTokens],
          hps, show approxTokens p.2 = max 1 (p.2.length / 4) from by
            simp [approxTokens, hp]]

/-- Claim C4 (confirmed): for every tree, query, include order, include
mode, score function, token budget and fuel, the mapping returned by
`collect_context` has estimated total token cost — the sum over returned
texts of `max(1, len(text) // 4)` — at most `token_budget`: `try_add` adds a
node only when its cost fits the remaining budget. -/
theorem collect_context_within_budget (t : CTree) (query : String) (budget : Nat)
    (order : List String) (mode : String) (scoreFn : String → CodeNode → Int)
    (fuel : Nat) :
    estTokens (collectContext t query budget order mode scoreFn fuel) ≤ budget := by
  have h := ccLoop_ccOK t.nodes mode budget order query scoreFn fuel ⟨[], 0⟩ [] ["root"]
    ⟨rfl, Nat.zero_le budget, by simp⟩
  rw [collectContext, estTokens_eq_usedTokens _ h.2]
  exact h.1

/-- Claim C10 (confirmed): `collect_context` never returns a node whose
prepared text (under the chosen include mode) is empty — `try_add` skips
empty texts — and with `token_budget = 0` the loop guard
`used_tokens < token_budget` fails immediately, so the result is the empty
mapping, for every query, include order and score function. -/
theorem collect_context_nonempty_and_zero_budget (t : CTree) (query : String)
    (budget : Nat) (order : List String) (mode : String)
    (scoreFn : String → CodeNode → Int) (fuel : Nat) :
    (∀ p ∈ collectContext t query budget order mode scoreFn fuel, p.2 ≠ "")
    ∧ collectContext t query 0 order mode scoreFn fuel = [] := by
  constructor
  · exact (ccLoop_ccOK t.nodes mode budget order query scoreFn fuel ⟨[], 0⟩ [] ["root"]
      ⟨rfl, Nat.zero_le budget, by simp⟩).2
  · cases fuel <;> rfl

set_option maxRecDepth 8000 in
/-- Witness for C10 at a concrete input: on a one-node tree with budget 10
the root's non-empty source is collected, and the theorem certifies it is
non-empty. -/
theorem collect_context_nonempty_and_zero_budget_witness :
    ("root", "abcdefgh") ∈ collectContext c10Tree "q" 10
        ["ancestors", "self", "siblings", "children"] "best" (fun _ _ => 0) 5
    ∧ ("abcdefgh" : String) ≠ "" :=
  ⟨by decide,
   (collect_context_nonempty_and_zero_budget c10Tree "q" 10
      ["ancestors", "self", "siblings", "children"] "best" (fun _ _ => 0) 5).1
     ("root", "abcdefgh") (by decide)⟩

/-- Claim C6 (confirmed): indexing the two-file project — file A containing
`class C: def m(self): pass`, file B containing `def f(): pass` — yields
exactly the symbol tables `C ↦ class, C.m ↦ method` for A and
`f ↦ function` for B, and `build_from_parser` produces the edges
`project → A → C → C.m` and `project → B → f`. -/
theorem two_file_project_index_and_tree :
    recordsOf c6PyA = [("C", "class"), ("C.m", "method")]
    ∧ recordsOf c6PyB = [("f", "function")]
    ∧ (List.lookup "root" c6Tree.nodes).map (fun n => (n.kind, n.children))
        = some ("project", ["a.py", "b.py"])
    ∧ (List.lookup "a.py" c6Tree.nodes).map (fun n => (n.kind, n.children))
        = some ("file", ["a.py::C"])
    ∧ (List.lookup "a.py::C" c6Tree.nodes).map (fun n => (n.kind, n.children))
        = some ("class", ["a.py::C.m"])
    ∧ (List.lookup "a.py::C.m" c6Tree.nodes).map (fun n => (n.kind, n.children))
        = some ("method", ([] : List String))
    ∧ (List.lookup "b.py" c6Tree.nodes).map (fun n => (n.kind, n.children))
        = some ("file", ["b.py::f"])
    ∧ (List.lookup "b.py::f" c6Tree.nodes).map (fun n => (n.kind, n.children))
        = some ("function", ([] : List String)) := by
  decide

/-- Claim C7 evidence (code_bug): after the conservative file-branch resync
of `_rebuild_file_branch` — reached through two tree-level edits: insert
`def helper` into `f`, then edit `helper` itself — the file node's
`children` list holds the stale pre-existing id `a.py::f` twice (the resync
pops the nodes by id prefix but never removes their ids from the file
node's `children`, then re-appends them), violating the invariant that
every non-root id appears exactly once in one parent's children list. -/
theorem rebuild_file_branch_duplicates_child :
    (List.lookup "a.py" (rebuildFileBranch c7Tree "a.py" c7Syms).nodes).map
        (fun n => n.children)
      = some ["a.py::f", "a.py::f", "a.py::helper"]
    ∧ (List.lookup "a.py" (rebuildFileBranch c7Tree "a.py" c7Syms).nodes).map
        (fun n => n.children.count "a.py::f")
      = some 2
    ∧ (2 : Nat) ≠ 1 := by
  decide

theorem mem_insSortedStr (x k : String) :
    ∀ l : List String, k ∈ insSortedStr x l ↔ k = x ∨ k ∈ l := by
  intro l
  induction l with
  | nil => simp [insSortedStr]
  | cons y ys ih =>
      by_cases hxy : x ≤ y
      · simp [insSortedStr, hxy]
      · simp [insSortedStr, hxy, ih]
        tauto

theorem mem_sortStrings (k : String) :
    ∀ l : List String, k ∈ sortStrings l ↔ k ∈ l := by
  intro l
  induction l with
  | nil => simp [sortStrings]
  | cons y ys ih => simp [sortStrings, mem_insSortedStr, ih]

/-- Claim C8 (confirmed): `ProjectParser.resolve` on an indexed file's table
returns the record on an exact match; on a miss it retries with the
whitespace-stripped symbol path and returns that record when present; on a
continued miss it fails with a `SymbolNotFound` error whose message
enumerates exactly the available symbol names of that file (sorted), and
never silently falls back to another symbol. -/
theorem resolve_exact_trim_or_error (recs : List (String × SymInfo)) (sp : String) :
    (∀ r, List.lookup sp recs = some r → resolveSymbol recs sp = .ok r)
    ∧ (List.lookup sp recs = none →
        ∀ r, List.lookup (pyStrip sp) recs = some r → resolveSymbol recs sp = .ok r)
    ∧ (List.lookup sp recs = none → List.lookup (pyStrip sp) recs = none →
        resolveSymbol recs sp
          = .error (.symbolNotFound sp (sortStrings (recs.map Prod.fst)))
        ∧ ∀ k, k ∈ sortStrings (recs.map Prod.fst) ↔ k ∈ recs.map Prod.fst) := by
  refine ⟨?_, ?_, ?_⟩
  · intro r h; simp [resolveSymbol, h]
  · intro h0 r h; simp [resolveSymbol, h0, h]
  · intro h0 h1
    exact ⟨by simp [resolveSymbol, h0, h1], fun k => mem_sortStrings k _⟩

/-- Witness for C8 at a concrete input: on a two-symbol table, a symbol path
absent even after stripping produces the `SymbolNotFound` error carrying the
sorted listing of available names. -/
theorem resolve_exact_trim_or_error_witness :
    List.lookup "zz" c8Recs = none
    ∧ List.lookup (pyStrip "zz") c8Recs = none
    ∧ resolveSymbol c8Recs "zz"
        = .error (.symbolNotFound "zz" (sortStrings (c8Recs.map Prod.fst))) :=
  ⟨rfl, rfl, ((resolve_exact_trim_or_error c8Recs "zz").2.2 rfl rfl).1⟩

/-! ## Supporting lemmas for serialization -/

theorem lookup_mem {β : Type} :
    ∀ {l : List (String × β)} {k : String} {v : β},
      List.lookup k l = some v → (k, v) ∈ l := by
  intro l
  induction l with
  | nil => intro k v h; simp [List.lookup] at h
  | cons p ps ih =>
      intro k v h
      obtain ⟨k2, v2⟩ := p
      rw [List.lookup] at h
      cases hbeq : k == k2 with
      | true =>
          rw [hbeq] at h
          simp only [Option.some_inj] at h
          subst h
          have : k = k2 := eq_of_beq hbeq
          subst this
          exact List.mem_cons_self _ _
      | false =>
          rw [hbeq] at h
          exact List.mem_cons_of_mem _ (ih h)

theorem lookup_eq_of_mem_nodup {β : Type} :
    ∀ {l : List (String × β)} {k : String} {v : β},
      (k, v) ∈ l → (l.map Prod.fst).Nodup → List.lookup k l = some v := by
  intro l
  induction l with
  | nil => intro k v h _; simp at h
  | cons p ps ih =>
      intro k v h hn
      obtain ⟨k2, v2⟩ := p
      simp only [List.map_cons, List.nodup_cons] at hn
      rcases List.mem_cons.mp h with heq | hmem
      · rw [Prod.mk.injEq] at heq
        obtain ⟨rfl, rfl⟩ := heq
        rw [List.lookup]
        simp
      · have hk : ¬ (k = k2) := by
          intro hkk
          subst hkk
          exact hn.1 (List.mem_map.mpr ⟨(k, v), hmem, rfl⟩)
        rw [List.lookup]
        rw [show (k == k2) = false from beq_eq_false_iff_ne.mpr hk]
        exact ih hmem hn.2

theorem foldl_insertLastWins_nodup :
    ∀ (l acc : List (String × CodeNode)),
      ((acc ++ l).map Prod.fst).Nodup → l.foldl insertLastWins acc = acc ++ l := by
  intro l
  induction l with
  | nil => intro acc _; simp
  | cons x xs ih =>
      intro acc hn
      have hdisj : ∀ p ∈ acc, (p.1 == x.1) = false := by
        intro p hp
        rw [beq_eq_false_iff_ne]
        intro hpx
        rw [List.map_append, List.nodup_append] at hn
        exact hn.2.2 (List.mem_map.mpr ⟨p, hp, rfl⟩)
          (by simp [hpx])
      have hany : acc.any (fun p => p.1 == x.1) = false := by
        rw [List.any_eq_false]
        intro p hp
        simp [hdisj p hp]
      rw [List.foldl_cons,
        show insertLastWins acc x = acc ++ [x] from by simp [insertLastWins, hany],
        ih (acc ++ [x]) (by simpa using hn)]
      simp

theorem buildMap_nodup (l : List (String × CodeNode))
    (h : (l.map Prod.fst).Nodup) : buildMap l = l := by
  have := foldl_insertLastWins_nodup l [] (by simpa using h)
  simpa [buildMap] using this

theorem exportNode_id (nodes : List (String × CodeNode))
    (hK : keysConsistent nodes = true) :
    ∀ (fuel : Nat) (nid : String) (d : NodeDict),
      exportNode true fuel nodes nid = some d → dictId d = nid := by
  intro fuel
  cases fuel with
  | zero => intro nid d h; simp [exportNode] at h
  | succ fuel =>
      intro nid d h
      rw [exportNode] at h
      cases hlook : List.lookup nid nodes with
      | none => rw [hlook] at h; simp at h
      | some n =>
          rw [hlook] at h
          dsimp only at h
          cases hch : exportChildren (fun c => exportNode true fuel nodes c) n.children with
          | none => rw [hch] at h; simp at h
          | some ds =>
              rw [hch] at h
              simp only [Option.some_inj] at h
              subst h
              have hmem := lookup_mem hlook
              have hkey := List.all_eq_true.mp hK (nid, n) hmem
              simpa [dictId] using hkey

theorem exportChildren_mem (f : String → Option NodeDict) :
    ∀ (cs : List String) (ds : NodeDicts), exportChildren f cs = some ds →
      ∀ c ∈ cs, ∃ cd, f c = some cd ∧ cd ∈ dictsToList ds := by
  intro cs
  induction cs with
  | nil => intro ds h c hc; simp at hc
  | cons c0 cs ih =>
      intro ds h c hc
      rw [exportChildren] at h
      cases hf : f c0 with
      | none => rw [hf] at h; simp at h
      | some d0 =>
          rw [hf] at h
          cases hcs : exportChildren f cs with
          | none => rw [hcs] at h; simp at h
          | some ds0 =>
              rw [hcs] at h
              simp only [Option.some_inj] at h
              subst h
              rcases List.mem_cons.mp hc with rfl | hmem
              · exact ⟨d0, hf, by simp [dictsToList]⟩
              · obtain ⟨cd, h1, h2⟩ := ih ds0 hcs c hmem
                exact ⟨cd, h1, by simp only [dictsToList, List.mem_cons]; exact Or.inr h2⟩

theorem exportChildren_ids (f : String → Option NodeDict)
    (hid : ∀ c d, f c = some d → dictId d = c) :
    ∀ (cs : List String) (ds : NodeDicts), exportChildren f cs = some ds →
      childIds ds = cs := by
  intro cs
  induction cs with
  | nil =>
      intro ds h
      rw [exportChildren] at h
      simp only [Option.some_inj] at h
      subst h
      rfl
  | cons c0 cs ih =>
      intro ds h
      rw [exportChildren] at h
      cases hf : f c0 with
      | none => rw [hf] at h; simp at h
      | some d0 =>
          rw [hf] at h
          cases hcs : exportChildren f cs with
          | none => rw [hcs] at h; simp at h
          | some ds0 =>
              rw [hcs] at h
              simp only [Option.some_inj] at h
              subst h
              rw [childIds, hid c0 d0 hf, ih ds0 hcs]

theorem flattenDicts_sub (p : Option String) :
    ∀ (ds : NodeDicts) (d : NodeDict), d ∈ dictsToList ds →
      ∀ x, x ∈ flattenDict p d → x ∈ flattenDicts p ds
  | .nil, d, h => by simp [dictsToList] at h
  | .cons d0 ds, d, h => by
      intro x hx
      rcases List.mem_cons.mp h with rfl | h0
      · rw [flattenDicts, List.mem_append]
        exact Or.inl hx
      · rw [flattenDicts, List.mem_append]
        exact Or.inr (flattenDicts_sub p ds d h0 x hx)

theorem export_matches_import (nodes F : List (String × CodeNode))
    (hK : keysConsistent nodes = true) (hS : noEmptySource nodes = true)
    (hN : (F.map Prod.fst).Nodup) :
    ∀ (fuel : Nat) (nid : String) (p : Option String) (d : NodeDict),
      exportNode true fuel nodes nid = some d →
      (∀ x ∈ flattenDict p d, x ∈ F) →
      reachMatch fuel nodes F nid = true := by
  intro fuel
  induction fuel with
  | zero => intro nid p d h _; simp [exportNode] at h
  | succ fuel ih =>
      intro nid p d h hsub
      rw [exportNode] at h
      cases hlook : List.lookup nid nodes with
      | none => rw [hlook] at h; simp at h
      | some n =>
          rw [hlook] at h
          dsimp only at h
          cases hch : exportChildren (fun c => exportNode true fuel nodes c) n.children with
          | none => rw [hch] at h; simp at h
          | some ds =>
              rw [hch] at h
              simp only [Option.some_inj] at h
              subst h
              have hid : n.id = nid := by
                have hkey := List.all_eq_true.mp hK (nid, n) (lookup_mem hlook)
                simpa using hkey
              have hsrc : ¬ (n.source = some "") := by
                have hs := List.all_eq_true.mp hS (nid, n) (lookup_mem hlook)
                simpa using hs
              have hhead :
                  (n.id, nodeOfDict p
                    (NodeDict.mk n.id n.name n.kind n.summary
                      (exportSource true n.source) ds)) ∈ F := by
                apply hsub
                rw [flattenDict]
                exact List.mem_cons_self _ _
              have hlook2 : List.lookup nid F
                  = some (nodeOfDict p
                      (NodeDict.mk n.id n.name n.kind n.summary
                        (exportSource true n.source) ds)) := by
                rw [← hid]
                exact lookup_eq_of_mem_nodup hhead hN
              have hids : childIds ds = n.children :=
                exportChildren_ids (fun c => exportNode true fuel nodes c)
                  (fun c cd hc => exportNode_id nodes hK fuel c cd hc)
                  n.children ds hch
              have hsrceq : (n.source == exportSource true n.source) = true := by
                cases hsv : n.source with
                | none => rfl
                | some s =>
                    have hne : ¬ (s = "") := by
                      intro hs0
                      exact hsrc (by rw [hsv, hs0])
                    simp [exportSource, hne]
              have hcheq : (n.children == childIds ds) = true := by
                simp [hids]
              rw [reachMatch, hlook, hlook2]
              dsimp only [nodeOfDict, dictId, dictName, dictKind, dictSummary,
                dictSource, dictChildren]
              simp only [Bool.and_eq_true, beq_self_eq_true, List.all_eq_true, true_and,
                hsrceq, hcheq, and_true]
              intro c hc
              obtain ⟨cd, hcd, hcdmem⟩ :=
                exportChildren_mem (fun c => exportNode true fuel nodes c)
                  n.children ds hch c hc
              apply ih c (some n.id) cd hcd
              intro x hx
              apply hsub
              rw [flattenDict]
              apply List.mem_cons_of_mem
              exact flattenDicts_sub (some n.id) ds cd hcdmem x hx

/-- Claim C5 (corrected): for every well-formed semantic tree — keys of
`nodes` equal the stored nodes' ids, no reachable node's source is the empty
string, and the export (at sufficient fuel, rooted at `"root"`) emits no
duplicate ids — exporting with `to_json(include_source=True)` and
re-importing with `create_from_dict` yields a tree in which every node
reachable from the root has the same id, kind, name, summary, source and
child ordering as the corresponding original node.  The empty-source
exclusion is forced by the counterexample: `to_dict` guards the source key
with Python truthiness (`if include_source and self.source`), so a node
whose source is `""` exports without a source key and re-imports with
source `None`. -/
theorem export_import_round_trip (t : CTree) (fuel : Nat) (d : NodeDict)
    (hK : keysConsistent t.nodes = true) (hS : noEmptySource t.nodes = true)
    (hE : exportNode true fuel t.nodes "root" = some d)
    (hN : ((flattenDict none d).map Prod.fst).Nodup) :
    reachMatch fuel t.nodes (createFromDict d).nodes "root" = true := by
  have hid : dictId d = "root" := exportNode_id t.nodes hK fuel "root" d hE
  have hnodes : (createFromDict d).nodes = flattenDict none d := by
    unfold createFromDict
    rw [hid]
    simp only [bne_self_eq_false, Bool.false_eq_true, if_false]
    exact buildMap_nodup _ hN
  rw [hnodes]
  exact export_matches_import t.nodes (flattenDict none d) hK hS hN fuel "root" none d
    hE (fun x hx => hx)

/-- Counterexample to C5 as stated: a root node whose source is the empty
string exports without a `source` key (Python truthiness in `to_dict`), so
the re-imported node's source is `None` while the original's is `Some ""` —
the sources differ after the round trip. -/
theorem export_import_round_trip_counterexample :
    (exportNode true 2 c5EmptyTree.nodes "root").map dictSource = some none
    ∧ (match exportNode true 2 c5EmptyTree.nodes "root" with
       | some d => (List.lookup "root" (createFromDict d).nodes).map (fun n => n.source)
       | none => none)
      = some none
    ∧ (List.lookup "root" c5EmptyTree.nodes).map (fun n => n.source) = some (some "")
    ∧ (some (none : Option String) ≠ some (some "")) := by
  refine ⟨rfl, rfl, rfl, by decide⟩

/-- Witness for C5 at a concrete input: the three-node fixture satisfies the
well-formedness hypotheses, exports to `c5wDict`, and the re-imported tree
matches the original on every reachable node. -/
theorem export_import_round_trip_witness :
    keysConsistent c5wTree.nodes = true
    ∧ reachMatch 5 c5wTree.nodes (createFromDict c5wDict).nodes "root" = true :=
  ⟨by decide,
   export_import_round_trip c5wTree 5 c5wDict (by decide) (by decide) rfl (by decide)⟩

/-! ## Sanity: the line counters agree with the renderer -/

theorem indentFirst_length (ind : String) :
    ∀ ls : List String, (indentFirst ind ls).length = ls.length
  | [] => rfl
  | _ :: _ => by simp [indentFirst]

mutual
theorem renderStmt_length (ind : String) :
    ∀ s : Stmt, (renderStmt ind s).length = stmtLines s
  | .simple leading ls => by
      simp [renderStmt, stmtLines, leadingOf, contentLines, indentFirst_length]
  | .compound d leading hd body tl => by
      simp [renderStmt, stmtLines, leadingOf, contentLines, indentFirst_length,
        renderStmts_length (ind ++ "    ") body]
      omega

theorem renderStmts_length (ind : String) :
    ∀ b : Stmts, (renderStmts ind b).length = stmtsLines b
  | .nil => rfl
  | .cons s rest => by
      simp [renderStmts, stmtsLines, renderStmt_length ind s,
        renderStmts_length ind rest, stmtLines]
end

theorem renderItem_length :
    ∀ it : TopItem, (renderItem it).length = itemLines it
  | .raw ls => rfl
  | .funcItem _ ind header body => by
      simp [renderItem, itemLines, renderStmts_length]

theorem renderItems_length :
    ∀ items : List TopItem, (renderItems items).length = itemsLines items
  | [] => rfl
  | it :: rest => by
      simp [renderItems, itemsLines, renderItem_length, renderItems_length rest]
